import Mathlib

/-!
Verification of the ledger core described in spec.md against the sources of the
repository.  The Account component is translated from src/src/lib/account.rs; the
Ledger orchestrator, the Transaction record and the error taxonomy are not among
the available sources (only their tests in src/src/lib/ledger/tests.rs are), so
they are modelled from the specification, with the behaviour at points the
specification leaves open pinned by the tests of the repository.
-/

set_option maxRecDepth 10000

namespace Payments

/-- Modelled from the spec: the Number type of the source is
rust_decimal::Decimal, an external library type; section 3 of the spec fixes its
contract as a fixed-precision decimal that exactly represents four fractional
digits with explicit overflow detection.  We represent such a value by its
integer count of 0.0001 units; the representable range mirrors the 96-bit
mantissa magnitude of the library type at that scale. -/
structure Number where
  units : Int
deriving DecidableEq

/-- Largest mantissa magnitude of a 96-bit decimal, in 0.0001 units. -/
def maxUnits : Int := 2 ^ 96 - 1

/-- A value is representable when its unit count fits in the 96-bit mantissa. -/
def Number.InRange (a : Number) : Prop := -maxUnits ≤ a.units ∧ a.units ≤ maxUnits

instance (a : Number) : Decidable a.InRange :=
  inferInstanceAs (Decidable (-maxUnits ≤ a.units ∧ a.units ≤ maxUnits))

/-- Exact addition (the library operator +). -/
def Number.add (a b : Number) : Number := ⟨a.units + b.units⟩

/-- Exact subtraction (the library operator -). -/
def Number.sub (a b : Number) : Number := ⟨a.units - b.units⟩

/-- checked_add: fails (None) when the exact sum leaves the representable range. -/
def Number.checked_add (a b : Number) : Option Number :=
  if (a.add b).InRange then some (a.add b) else none

/-- checked_sub: fails (None) when the exact difference leaves the range. -/
def Number.checked_sub (a b : Number) : Option Number :=
  if (a.sub b).InRange then some (a.sub b) else none

/-- Ordering comparison of the library type. -/
def Number.lt (a b : Number) : Prop := a.units < b.units

instance (a b : Number) : Decidable (a.lt b) :=
  inferInstanceAs (Decidable (a.units < b.units))

/-- Number::ZERO. -/
def Number.zero : Number := ⟨0⟩

/-- Number::ONE (10000 units of 0.0001). -/
def Number.one : Number := ⟨10000⟩

/-- The smallest positive amount at four fractional digits, 0.0001. -/
def Number.tick : Number := ⟨1⟩

/-- ClientId(u16) from account.rs; only compared for equality, modelled as Nat. -/
abbrev ClientId := Nat

/-- Per-client record from account.rs: available and held balances and the lock. -/
structure Account where
  available : Number
  held : Number
  locked : Bool
deriving DecidableEq

/-- The zero-valued account produced by the derived Default of account.rs. -/
def Account.default : Account := ⟨Number.zero, Number.zero, false⟩

/-- AccountError from account.rs. -/
inductive AccountError where
  | Overflow (available held transaction_amount : Number)
  | Underflow (available held transaction_amount : Number)
  | FrozenAccount (account : Account)
deriving DecidableEq

/-- AccountResult from account.rs; an error leaves the account of the caller
unchanged (every operation of the source checks before it assigns). -/
abbrev AccountResult := Except AccountError Account

/-- Account::total from account.rs. -/
def Account.total (a : Account) : Number := a.available.add a.held

/-- Account::check_locked from account.rs. -/
def Account.check_locked (a : Account) : Except AccountError Unit :=
  if a.locked then .error (.FrozenAccount a) else .ok ()

/-- Account::deposit from account.rs: checked add to available, Overflow on
failure; no lock check. -/
def Account.deposit (a : Account) (amount : Number) : AccountResult :=
  match a.available.checked_add amount with
  | none => .error (.Overflow a.available a.held amount)
  | some v => .ok { a with available := v }

/-- Account::withdraw from account.rs: lock check first, then the funds check,
then the exact subtraction. -/
def Account.withdraw (a : Account) (amount : Number) : AccountResult :=
  match a.check_locked with
  | .error e => .error e
  | .ok _ =>
    if a.available.lt amount then
      .error (.Underflow a.available a.held amount)
    else
      .ok { a with available := a.available.sub amount }

/-- Account::dispute from account.rs: both checked operations are performed
before either field is assigned (all-or-nothing). -/
def Account.dispute (a : Account) (amount : Number) : AccountResult :=
  match a.available.checked_sub amount with
  | none => .error (.Underflow a.available a.held amount)
  | some av =>
    match a.held.checked_add amount with
    | none => .error (.Overflow a.available a.held amount)
    | some hl => .ok { a with available := av, held := hl }

/-- Account::resolve from account.rs: symmetric to dispute. -/
def Account.resolve (a : Account) (amount : Number) : AccountResult :=
  match a.available.checked_add amount with
  | none => .error (.Overflow a.available a.held amount)
  | some av =>
    match a.held.checked_sub amount with
    | none => .error (.Underflow a.available a.held amount)
    | some hl => .ok { a with available := av, held := hl }

/-- Account::chargeback from account.rs: an unchecked subtraction from held and
the installation of the lock; it cannot report a failure. -/
def Account.chargeback (a : Account) (amount : Number) : Account :=
  { a with held := a.held.sub amount, locked := true }

/-- TransactionId: an opaque identifier, modelled as Nat. -/
abbrev TransactionId := Nat

/-- Modelled from the spec: the Operation enumeration of transactions.rs, a
source file that is not among the available sources (section 3 of the spec). -/
inductive Operation where
  | Deposit
  | Withdrawal
  | Dispute
  | Resolve
  | Chargeback
deriving DecidableEq

/-- Modelled from the spec: the TransactionState enumeration of transactions.rs
(section 4.2 of the spec): Ok is both the initial and the resolved state,
Chargedback is terminal. -/
inductive TransactionState where
  | Ok
  | Disputed
  | Chargedback
deriving DecidableEq

/-- Modelled from the spec: the Transaction record of transactions.rs (section 3
of the spec): client, amount and operation, plus the mutable state tracked by
the Ledger.  Transaction::new produces state Ok. -/
structure Transaction where
  client : ClientId
  amount : Number
  operation : Operation
  state : TransactionState := .Ok
deriving DecidableEq

/-- Transaction::new(client, amount, operation) with the initial state Ok. -/
def Transaction.new (client : ClientId) (amount : Number) (operation : Operation) :
    Transaction :=
  { client := client, amount := amount, operation := operation, state := .Ok }

/-- Modelled from the spec: the TransactionError enumeration of transactions.rs
(section 7 of the spec); the shapes of the payloads follow the assertions of
src/src/lib/ledger/tests.rs. -/
inductive TransactionError where
  | RepeatedTransactionId (id : TransactionId)
  | UnknownTransactionId (id : TransactionId)
  | AlreadyDisputed (id : TransactionId)
  | UndisputedTransaction (id : TransactionId)
  | WrappedAccountError (client : ClientId) (e : AccountError)
deriving DecidableEq

/-- TransactionResult as in the sources: Result of unit and TransactionError. -/
abbrev TransactionResult := Except TransactionError Unit

instance {ε α : Type} [DecidableEq ε] [DecidableEq α] : DecidableEq (Except ε α) :=
  fun x y =>
    match x, y with
    | .ok a, .ok b => if h : a = b then .isTrue (by rw [h]) else .isFalse (by simp [h])
    | .error a, .error b => if h : a = b then .isTrue (by rw [h]) else .isFalse (by simp [h])
    | .ok _, .error _ => .isFalse (by simp)
    | .error _, .ok _ => .isFalse (by simp)

/-- Lookup in an association list keyed like the HashMap of the Ledger. -/
def getMap {α : Type} : List (Nat × α) → Nat → Option α
  | [], _ => none
  | (k', v) :: rest, k => if k = k' then some v else getMap rest k

/-- Insert-or-replace in an association list keyed like the HashMap of the
Ledger: replaces the first entry with the key, else appends. -/
def setMap {α : Type} : List (Nat × α) → Nat → α → List (Nat × α)
  | [], k, v => [(k, v)]
  | (k', v') :: rest, k, v =>
    if k = k' then (k, v) :: rest else (k', v') :: setMap rest k v

/-- Modelled from the spec: the Ledger of ledger.rs, a source file that is not
among the available sources (sections 3 and 4.3 of the spec): a mapping from
ClientId to Account and a mapping from TransactionId to Transaction. -/
structure Ledger where
  accounts : List (ClientId × Account)
  transactions : List (TransactionId × Transaction)
deriving DecidableEq

/-- Ledger::new. -/
def Ledger.new : Ledger := ⟨[], []⟩

/-- The account of a client, zero-valued when the client is not yet present
(lazy creation, section 3 of the spec). -/
def Ledger.account (L : Ledger) (c : ClientId) : Account :=
  (getMap L.accounts c).getD Account.default

/-- Modelled from the spec: the Deposit/Withdrawal arm of
Ledger::apply_transaction (section 4.3 point 1): RepeatedTransactionId when the
id is already in history; otherwise the Account operation runs on the account
of the client of the record and only on success is the account stored and a
history entry with state Ok inserted; per the propagation policy of section 7 a
failure mutates no state. -/
def Ledger.applyTransfer (L : Ledger) (id : TransactionId) (t : Transaction)
    (op : Account → Number → AccountResult) : TransactionResult × Ledger :=
  if (getMap L.transactions id).isSome then
    (.error (.RepeatedTransactionId id), L)
  else
    match op (L.account t.client) t.amount with
    | .error e => (.error (.WrappedAccountError t.client e), L)
    | .ok acc =>
      (.ok (),
        ⟨setMap L.accounts t.client acc,
          setMap L.transactions id { t with state := .Ok }⟩)

/-- Modelled from the spec: the Dispute arm of Ledger::apply_transaction
(section 4.3 point 2): UnknownTransactionId when the id is absent; the dispute
is allowed only against a Deposit in state Ok (the table of section 4.2
together with the rule that a Dispute may only reference a Deposit, pinned by
the test cant_dispute_withdrawal which expects AlreadyDisputed in every other
case); the amount and client are the stored ones. -/
def Ledger.disputeTx (L : Ledger) (id : TransactionId) : TransactionResult × Ledger :=
  match getMap L.transactions id with
  | none => (.error (.UnknownTransactionId id), L)
  | some tx =>
    if tx.state = .Ok ∧ tx.operation = .Deposit then
      match (L.account tx.client).dispute tx.amount with
      | .error e => (.error (.WrappedAccountError tx.client e), L)
      | .ok acc =>
        (.ok (),
          ⟨setMap L.accounts tx.client acc,
            setMap L.transactions id { tx with state := .Disputed }⟩)
    else
      (.error (.AlreadyDisputed id), L)

/-- Modelled from the spec: the Resolve arm of Ledger::apply_transaction
(section 4.3 point 2): only a Disputed transaction may be resolved, anything
else is UndisputedTransaction (pinned by the tests cant_resolve_undisputed_transaction
and cant_chargeback_multiple_times). -/
def Ledger.resolveTx (L : Ledger) (id : TransactionId) : TransactionResult × Ledger :=
  match getMap L.transactions id with
  | none => (.error (.UnknownTransactionId id), L)
  | some tx =>
    if tx.state = .Disputed then
      match (L.account tx.client).resolve tx.amount with
      | .error e => (.error (.WrappedAccountError tx.client e), L)
      | .ok acc =>
        (.ok (),
          ⟨setMap L.accounts tx.client acc,
            setMap L.transactions id { tx with state := .Ok }⟩)
    else
      (.error (.UndisputedTransaction id), L)

/-- Modelled from the spec: the Chargeback arm of Ledger::apply_transaction
(section 4.3 point 2): only a Disputed transaction may be charged back; the
Account chargeback cannot report a failure, so the arm always succeeds. -/
def Ledger.chargebackTx (L : Ledger) (id : TransactionId) : TransactionResult × Ledger :=
  match getMap L.transactions id with
  | none => (.error (.UnknownTransactionId id), L)
  | some tx =>
    if tx.state = .Disputed then
      (.ok (),
        ⟨setMap L.accounts tx.client ((L.account tx.client).chargeback tx.amount),
          setMap L.transactions id { tx with state := .Chargedback }⟩)
    else
      (.error (.UndisputedTransaction id), L)

/-- Modelled from the spec: Ledger::apply_transaction of ledger.rs (section 4.3
of the spec), dispatching on the operation of the record. -/
def Ledger.apply_transaction (L : Ledger) (id : TransactionId) (t : Transaction) :
    TransactionResult × Ledger :=
  match t.operation with
  | .Deposit => L.applyTransfer id t Account.deposit
  | .Withdrawal => L.applyTransfer id t Account.withdraw
  | .Dispute => L.disputeTx id
  | .Resolve => L.resolveTx id
  | .Chargeback => L.chargebackTx id

/-- The fold of process_transactions in ledger/tests.rs: applies a list of
records in order, collecting the per-record results. -/
def Ledger.applyAll (L : Ledger) :
    List (TransactionId × Transaction) → List TransactionResult × Ledger
  | [] => ([], L)
  | r :: rest =>
    let step := L.apply_transaction r.1 r.2
    let next := step.2.applyAll rest
    (step.1 :: next.1, next.2)

theorem Number.ext {a b : Number} (h : a.units = b.units) : a = b := by
  cases a; cases b; simpa using h

/-- The account with its lock flag set to a given value, other fields kept. -/
def Account.withLocked (a : Account) (b : Bool) : Account := { a with locked := b }

/-- Two account-operation results observe the same behaviour: identical errors,
or success with identical available and held balances. -/
def sameOutcome : AccountResult → AccountResult → Prop
  | .error e₁, .error e₂ => e₁ = e₂
  | .ok a₁, .ok a₂ => a₁.available = a₂.available ∧ a₁.held = a₂.held
  | _, _ => False

/-- The lock flag the caller observes after an operation: the flag of the new
account on success, the unchanged flag of the old account on failure (every
operation of account.rs checks before it assigns). -/
def lockedAfter (a : Account) : AccountResult → Bool
  | .ok a' => a'.locked
  | .error _ => a.locked

theorem foldl_add_units (l : List Number) (t : Number) :
    (l.foldl Number.add t).units = t.units + (l.map Number.units).sum := by
  induction l generalizing t with
  | nil => simp
  | cons x xs ih => simp only [List.foldl_cons, List.map_cons, List.sum_cons, ih]
                    simp [Number.add]; ring

theorem foldl_sub_units (l : List Number) (t : Number) :
    (l.foldl Number.sub t).units = t.units - (l.map Number.units).sum := by
  induction l generalizing t with
  | nil => simp
  | cons x xs ih => simp only [List.foldl_cons, List.map_cons, List.sum_cons, ih]
                    simp [Number.sub]; ring

/-- C3: Account::withdraw returns FrozenAccount when the account is locked (the
lock check precedes the funds check); otherwise Underflow when available is
less than the amount; otherwise it succeeds, decreasing available by exactly
the amount and leaving held and the lock unchanged. -/
theorem withdraw_characterization (a : Account) (amount : Number) :
    a.withdraw amount =
      if a.locked then .error (.FrozenAccount a)
      else if a.available.lt amount then .error (.Underflow a.available a.held amount)
      else .ok { a with available := a.available.sub amount } := by
  unfold Account.withdraw Account.check_locked
  by_cases h : a.locked <;> simp [h]

/-- C7: on a locked account, withdrawal is the only blocked operation: deposit
succeeds whenever the sum is representable (no lock check), and dispute,
resolve and chargeback observe exactly the behaviour of the unlocked account. -/
theorem lock_blocks_only_withdrawal (a : Account) (amount : Number) :
    ((a.available.add amount).InRange →
      (a.withLocked true).deposit amount = .ok ⟨a.available.add amount, a.held, true⟩)
    ∧ sameOutcome ((a.withLocked true).deposit amount)
        ((a.withLocked false).deposit amount)
    ∧ sameOutcome ((a.withLocked true).dispute amount)
        ((a.withLocked false).dispute amount)
    ∧ sameOutcome ((a.withLocked true).resolve amount)
        ((a.withLocked false).resolve amount)
    ∧ (a.withLocked true).chargeback amount = (a.withLocked false).chargeback amount := by
  refine ⟨?_, ?_, ?_, ?_, ?_⟩
  · intro h
    simp [Account.withLocked, Account.deposit, Number.checked_add, h]
  · simp only [Account.withLocked, Account.deposit]
    cases hv : Number.checked_add a.available amount <;> simp [sameOutcome]
  · simp only [Account.withLocked, Account.dispute]
    cases hv : Number.checked_sub a.available amount <;>
      cases hh : Number.checked_add a.held amount <;> simp [sameOutcome]
  · simp only [Account.withLocked, Account.resolve]
    cases hv : Number.checked_add a.available amount <;>
      cases hh : Number.checked_sub a.held amount <;> simp [sameOutcome]
  · simp [Account.withLocked, Account.chargeback]

/-- C7 witness: a locked account accepts a concrete deposit. -/
theorem lock_blocks_only_withdrawal_witness :
    ((⟨⟨100⟩, ⟨0⟩, true⟩ : Account).available.add ⟨5⟩).InRange
    ∧ ((⟨⟨100⟩, ⟨0⟩, true⟩ : Account).withLocked true).deposit ⟨5⟩ =
        .ok ⟨⟨105⟩, ⟨0⟩, true⟩ :=
  ⟨by decide, (lock_blocks_only_withdrawal ⟨⟨100⟩, ⟨0⟩, true⟩ ⟨5⟩).1 (by decide)⟩

/-- C9: Number arithmetic is exact at four fractional digits: summing any
sequence of amounts into a running total starting at zero and then subtracting
the same amounts returns the total exactly to zero, and in particular adding
0.0001 ten thousand times to zero yields exactly one, and subtracting 0.0001
ten thousand times from one yields exactly zero. -/
theorem fixed_point_exactness :
    (∀ l : List Number,
      l.foldl Number.sub (l.foldl Number.add Number.zero) = Number.zero)
    ∧ (List.replicate 10000 Number.tick).foldl Number.add Number.zero = Number.one
    ∧ (List.replicate 10000 Number.tick).foldl Number.sub Number.one = Number.zero := by
  refine ⟨fun l => ?_, ?_, ?_⟩
  · apply Number.ext
    rw [foldl_sub_units, foldl_add_units]
    simp [Number.zero]
  · apply Number.ext
    rw [foldl_add_units, List.map_replicate, List.sum_replicate]
    simp [Number.zero, Number.one, Number.tick]
  · apply Number.ext
    rw [foldl_sub_units, List.map_replicate, List.sum_replicate]
    simp [Number.zero, Number.one, Number.tick]

/-- C10: the lock flag is monotone: deposit, withdraw, dispute and resolve
leave the observed lock flag exactly as it was, whether they succeed or fail,
and chargeback always sets it to true; hence no operation ever resets it. -/
theorem locked_flag_monotone (a : Account) (amount : Number) :
    lockedAfter a (a.deposit amount) = a.locked
    ∧ lockedAfter a (a.withdraw amount) = a.locked
    ∧ lockedAfter a (a.dispute amount) = a.locked
    ∧ lockedAfter a (a.resolve amount) = a.locked
    ∧ (a.chargeback amount).locked = true := by
  refine ⟨?_, ?_, ?_, ?_, ?_⟩
  · simp only [Account.deposit]
    cases hv : Number.checked_add a.available amount <;> simp [lockedAfter]
  · simp only [Account.withdraw, Account.check_locked]
    by_cases h : a.locked
    · simp [h, lockedAfter]
    · by_cases h2 : a.available.lt amount <;> simp [h, h2, lockedAfter]
  · simp only [Account.dispute]
    cases hv : Number.checked_sub a.available amount <;>
      cases hh : Number.checked_add a.held amount <;> simp [lockedAfter]
  · simp only [Account.resolve]
    cases hv : Number.checked_add a.available amount <;>
      cases hh : Number.checked_sub a.held amount <;> simp [lockedAfter]
  · simp [Account.chargeback]

theorem getMap_setMap_self {α : Type} (m : List (Nat × α)) (k : Nat) (v : α) :
    getMap (setMap m k v) k = some v := by
  induction m with
  | nil => simp [setMap, getMap]
  | cons p rest ih =>
    obtain ⟨k', v'⟩ := p
    by_cases h : k = k'
    · simp [setMap, h, getMap]
    · simp [setMap, h, getMap, ih]

theorem getMap_setMap_ne {α : Type} (m : List (Nat × α)) (k j : Nat) (v : α)
    (h : j ≠ k) : getMap (setMap m k v) j = getMap m j := by
  induction m with
  | nil => simp [setMap, getMap, h]
  | cons p rest ih =>
    obtain ⟨k', v'⟩ := p
    by_cases hk : k = k'
    · subst hk
      simp [setMap, getMap, h]
    · by_cases hj : j = k'
      · simp [setMap, hk, getMap, hj]
      · simp [setMap, hk, getMap, hj, ih]

theorem applyTransfer_error_eq {L L' : Ledger} {id : TransactionId}
    {t : Transaction} {op : Account → Number → AccountResult} {e : TransactionError}
    (h : L.applyTransfer id t op = (.error e, L')) : L' = L := by
  unfold Ledger.applyTransfer at h
  split at h
  · exact (congrArg Prod.snd h).symm
  · split at h
    · exact (congrArg Prod.snd h).symm
    · have := congrArg Prod.fst h; simp at this

theorem disputeTx_error_eq {L L' : Ledger} {id : TransactionId} {e : TransactionError}
    (h : L.disputeTx id = (.error e, L')) : L' = L := by
  unfold Ledger.disputeTx at h
  split at h
  · exact (congrArg Prod.snd h).symm
  · split at h
    · split at h
      · exact (congrArg Prod.snd h).symm
      · have := congrArg Prod.fst h; simp at this
    · exact (congrArg Prod.snd h).symm

theorem resolveTx_error_eq {L L' : Ledger} {id : TransactionId} {e : TransactionError}
    (h : L.resolveTx id = (.error e, L')) : L' = L := by
  unfold Ledger.resolveTx at h
  split at h
  · exact (congrArg Prod.snd h).symm
  · split at h
    · split at h
      · exact (congrArg Prod.snd h).symm
      · have := congrArg Prod.fst h; simp at this
    · exact (congrArg Prod.snd h).symm

theorem chargebackTx_error_eq {L L' : Ledger} {id : TransactionId} {e : TransactionError}
    (h : L.chargebackTx id = (.error e, L')) : L' = L := by
  unfold Ledger.chargebackTx at h
  split at h
  · exact (congrArg Prod.snd h).symm
  · split at h
    · have := congrArg Prod.fst h; simp at this
    · exact (congrArg Prod.snd h).symm

/-- C1: a failing record mutates nothing: whenever apply_transaction returns an
error, the resulting ledger is the input ledger, so every account and every
stored transaction state is unchanged, no history entry is recorded and no
account is created (in particular a Dispute, Resolve or Chargeback on an
unknown transaction id creates no account). -/
theorem apply_transaction_error_mutates_nothing (L : Ledger) (id : TransactionId)
    (t : Transaction) (e : TransactionError) (L' : Ledger)
    (h : L.apply_transaction id t = (.error e, L')) :
    L' = L ∧ L'.accounts = L.accounts ∧ L'.transactions = L.transactions := by
  have hL : L' = L := by
    unfold Ledger.apply_transaction at h
    cases hop : t.operation <;> rw [hop] at h
    · exact applyTransfer_error_eq h
    · exact applyTransfer_error_eq h
    · exact disputeTx_error_eq h
    · exact resolveTx_error_eq h
    · exact chargebackTx_error_eq h
  exact ⟨hL, by rw [hL], by rw [hL]⟩

/-- C1 witness: a Dispute on an unknown transaction id fails on a concrete
ledger and leaves it untouched. -/
theorem apply_transaction_error_mutates_nothing_witness :
    (Ledger.new.apply_transaction 0 (Transaction.new 1 Number.zero .Dispute) =
      (.error (.UnknownTransactionId 0), Ledger.new))
    ∧ Ledger.new = Ledger.new :=
  ⟨by decide,
    (apply_transaction_error_mutates_nothing Ledger.new 0
      (Transaction.new 1 Number.zero .Dispute) (.UnknownTransactionId 0) Ledger.new
      (by decide)).1⟩

/-- C2: the scenario Deposit(tx 1, client 1, 50), Deposit(tx 2, client 1, 20),
Dispute(tx 1) on a fresh ledger succeeds at every step and leaves client 1 with
available 20, held 50, unlocked, a transaction map of exactly two entries and
transaction 1 in state Disputed (amounts in 0.0001 units: 50 is 500000). -/
theorem simple_dispute_scenario :
    (Ledger.new.applyAll
      [(1, Transaction.new 1 ⟨500000⟩ .Deposit),
       (2, Transaction.new 1 ⟨200000⟩ .Deposit),
       (1, Transaction.new 1 Number.zero .Dispute)]).1 = [.ok (), .ok (), .ok ()]
    ∧ ((Ledger.new.applyAll
      [(1, Transaction.new 1 ⟨500000⟩ .Deposit),
       (2, Transaction.new 1 ⟨200000⟩ .Deposit),
       (1, Transaction.new 1 Number.zero .Dispute)]).2.account 1).available = ⟨200000⟩
    ∧ ((Ledger.new.applyAll
      [(1, Transaction.new 1 ⟨500000⟩ .Deposit),
       (2, Transaction.new 1 ⟨200000⟩ .Deposit),
       (1, Transaction.new 1 Number.zero .Dispute)]).2.account 1).held = ⟨500000⟩
    ∧ ((Ledger.new.applyAll
      [(1, Transaction.new 1 ⟨500000⟩ .Deposit),
       (2, Transaction.new 1 ⟨200000⟩ .Deposit),
       (1, Transaction.new 1 Number.zero .Dispute)]).2.account 1).locked = false
    ∧ (Ledger.new.applyAll
      [(1, Transaction.new 1 ⟨500000⟩ .Deposit),
       (2, Transaction.new 1 ⟨200000⟩ .Deposit),
       (1, Transaction.new 1 Number.zero .Dispute)]).2.transactions.length = 2
    ∧ (getMap (Ledger.new.applyAll
      [(1, Transaction.new 1 ⟨500000⟩ .Deposit),
       (2, Transaction.new 1 ⟨200000⟩ .Deposit),
       (1, Transaction.new 1 Number.zero .Dispute)]).2.transactions 1).map
        Transaction.state = some .Disputed := by
  decide

/-- C4: a Chargedback transaction is terminal: any Dispute, Resolve or
Chargeback referencing it fails (AlreadyDisputed for a Dispute,
UndisputedTransaction for a Resolve or Chargeback) and returns the ledger
unchanged, so the stored state stays Chargedback, no balance moves and the
lock flag of the account is untouched. -/
theorem chargedback_is_terminal (L : Ledger) (id : TransactionId)
    (tx t : Transaction)
    (hfind : getMap L.transactions id = some tx)
    (hstate : tx.state = .Chargedback)
    (hop : t.operation = .Dispute ∨ t.operation = .Resolve ∨ t.operation = .Chargeback) :
    L.apply_transaction id t =
      (.error (if t.operation = .Dispute then .AlreadyDisputed id
               else .UndisputedTransaction id), L) := by
  rcases hop with hop | hop | hop <;>
    simp [Ledger.apply_transaction, hop, Ledger.disputeTx, Ledger.resolveTx,
      Ledger.chargebackTx, hfind, hstate]

/-- C4 witness: a Resolve on a concrete charged-back transaction fails and
leaves the concrete ledger unchanged. -/
theorem chargedback_is_terminal_witness :
    (getMap (Ledger.mk [(7, ⟨⟨400000⟩, ⟨0⟩, true⟩)]
        [(2, ⟨7, ⟨200000⟩, .Deposit, .Chargedback⟩)]).transactions 2 =
      some ⟨7, ⟨200000⟩, .Deposit, .Chargedback⟩)
    ∧ (Ledger.mk [(7, ⟨⟨400000⟩, ⟨0⟩, true⟩)]
        [(2, ⟨7, ⟨200000⟩, .Deposit, .Chargedback⟩)]).apply_transaction 2
        (Transaction.new 7 Number.zero .Resolve) =
      (.error (.UndisputedTransaction 2),
        Ledger.mk [(7, ⟨⟨400000⟩, ⟨0⟩, true⟩)]
          [(2, ⟨7, ⟨200000⟩, .Deposit, .Chargedback⟩)]) :=
  ⟨by decide,
    chargedback_is_terminal
      (Ledger.mk [(7, ⟨⟨400000⟩, ⟨0⟩, true⟩)]
        [(2, ⟨7, ⟨200000⟩, .Deposit, .Chargedback⟩)]) 2
      ⟨7, ⟨200000⟩, .Deposit, .Chargedback⟩
      (Transaction.new 7 Number.zero .Resolve)
      (by decide) (by decide) (.inr (.inl (by decide)))⟩

/-- C5 counterexample: a Dispute of a Withdrawal whose stored state is Ok also
yields AlreadyDisputed (the scenario of the test cant_dispute_withdrawal), so
AlreadyDisputed is not returned only when the referenced transaction is
currently Disputed. -/
theorem alreadyDisputed_on_ok_withdrawal_cex :
    ((getMap (Ledger.new.applyAll
        [(1, Transaction.new 1 ⟨500000⟩ .Deposit),
         (2, Transaction.new 1 ⟨200000⟩ .Withdrawal)]).2.transactions 2).map
      Transaction.state = some .Ok)
    ∧ ((Ledger.new.applyAll
        [(1, Transaction.new 1 ⟨500000⟩ .Deposit),
         (2, Transaction.new 1 ⟨200000⟩ .Withdrawal)]).2.apply_transaction 2
        (Transaction.new 1 Number.zero .Dispute)).1 = .error (.AlreadyDisputed 2) := by
  decide

theorem apply_transaction_eq_deposit {L : Ledger} {id : TransactionId}
    {t : Transaction} (h : t.operation = .Deposit) :
    L.apply_transaction id t = L.applyTransfer id t Account.deposit := by
  unfold Ledger.apply_transaction; rw [h]

theorem apply_transaction_eq_withdrawal {L : Ledger} {id : TransactionId}
    {t : Transaction} (h : t.operation = .Withdrawal) :
    L.apply_transaction id t = L.applyTransfer id t Account.withdraw := by
  unfold Ledger.apply_transaction; rw [h]

theorem apply_transaction_eq_dispute {L : Ledger} {id : TransactionId}
    {t : Transaction} (h : t.operation = .Dispute) :
    L.apply_transaction id t = L.disputeTx id := by
  unfold Ledger.apply_transaction; rw [h]

theorem apply_transaction_eq_resolve {L : Ledger} {id : TransactionId}
    {t : Transaction} (h : t.operation = .Resolve) :
    L.apply_transaction id t = L.resolveTx id := by
  unfold Ledger.apply_transaction; rw [h]

theorem apply_transaction_eq_chargeback {L : Ledger} {id : TransactionId}
    {t : Transaction} (h : t.operation = .Chargeback) :
    L.apply_transaction id t = L.chargebackTx id := by
  unfold Ledger.apply_transaction; rw [h]

theorem applyTransfer_fst_ne_alreadyDisputed {L : Ledger} {id : TransactionId}
    {t : Transaction} {op : Account → Number → AccountResult} {j : TransactionId} :
    (L.applyTransfer id t op).1 ≠ .error (.AlreadyDisputed j) := by
  unfold Ledger.applyTransfer
  split
  · simp
  · split <;> simp

theorem resolveTx_fst_ne_alreadyDisputed {L : Ledger} {id j : TransactionId} :
    (L.resolveTx id).1 ≠ .error (.AlreadyDisputed j) := by
  unfold Ledger.resolveTx
  split
  · simp
  · split
    · split <;> simp
    · simp

theorem chargebackTx_fst_ne_alreadyDisputed {L : Ledger} {id j : TransactionId} :
    (L.chargebackTx id).1 ≠ .error (.AlreadyDisputed j) := by
  unfold Ledger.chargebackTx
  split
  · simp
  · split <;> simp

theorem disputeTx_alreadyDisputed_iff (L : Ledger) (id j : TransactionId) :
    (L.disputeTx id).1 = .error (.AlreadyDisputed j) ↔
      (j = id ∧ ∃ tx, getMap L.transactions id = some tx ∧
        ¬(tx.state = .Ok ∧ tx.operation = .Deposit)) := by
  unfold Ledger.disputeTx
  cases hfind : getMap L.transactions id
  · simp
  · rename_i tx
    by_cases hc : tx.state = .Ok ∧ tx.operation = .Deposit
    · cases hacc : (L.account tx.client).dispute tx.amount <;>
        simp [hc, hacc, hc.1, hc.2]
    · simp only [hc, if_false, if_neg hc]
      constructor
      · intro h
        refine ⟨?_, tx, rfl, hc⟩
        have hij : id = j := by simpa using h
        exact hij.symm
      · rintro ⟨hj, tx', htx', -⟩
        subst hj
        simp

/-- C5 amended: apply_transaction returns AlreadyDisputed exactly when the
record is a Dispute whose referenced transaction id is known and is not a
Deposit in state Ok — that is, it is already Disputed, already Chargedback, or
a Withdrawal; and such a failing Dispute leaves the ledger unchanged. -/
theorem alreadyDisputed_characterization (L : Ledger) (id : TransactionId)
    (t : Transaction) (j : TransactionId) :
    ((L.apply_transaction id t).1 = .error (.AlreadyDisputed j) ↔
      (j = id ∧ t.operation = .Dispute ∧
        ∃ tx, getMap L.transactions id = some tx ∧
          ¬(tx.state = .Ok ∧ tx.operation = .Deposit)))
    ∧ ((L.apply_transaction id t).1 = .error (.AlreadyDisputed j) →
        (L.apply_transaction id t).2 = L) := by
  constructor
  · cases hop : t.operation
    · rw [apply_transaction_eq_deposit hop]
      simp [applyTransfer_fst_ne_alreadyDisputed, hop]
    · rw [apply_transaction_eq_withdrawal hop]
      simp [applyTransfer_fst_ne_alreadyDisputed, hop]
    · rw [apply_transaction_eq_dispute hop, disputeTx_alreadyDisputed_iff]
      simp [hop]
    · rw [apply_transaction_eq_resolve hop]
      simp [resolveTx_fst_ne_alreadyDisputed, hop]
    · rw [apply_transaction_eq_chargeback hop]
      simp [chargebackTx_fst_ne_alreadyDisputed, hop]
  · intro h
    have hx : L.apply_transaction id t =
        ((L.apply_transaction id t).1, (L.apply_transaction id t).2) := rfl
    rw [h] at hx
    cases hop : t.operation
    · rw [apply_transaction_eq_deposit hop] at hx ⊢
      exact applyTransfer_error_eq hx
    · rw [apply_transaction_eq_withdrawal hop] at hx ⊢
      exact applyTransfer_error_eq hx
    · rw [apply_transaction_eq_dispute hop] at hx ⊢
      exact disputeTx_error_eq hx
    · rw [apply_transaction_eq_resolve hop] at hx ⊢
      exact resolveTx_error_eq hx
    · rw [apply_transaction_eq_chargeback hop] at hx ⊢
      exact chargebackTx_error_eq hx

/-- C5 witness: the characterization produces AlreadyDisputed on the concrete
ledger holding an Ok-state Withdrawal under id 2. -/
theorem alreadyDisputed_characterization_witness :
    (((Ledger.mk [(1, ⟨⟨300000⟩, ⟨0⟩, false⟩)]
        [(1, ⟨1, ⟨500000⟩, .Deposit, .Ok⟩), (2, ⟨1, ⟨200000⟩, .Withdrawal, .Ok⟩)]).apply_transaction
        2 (Transaction.new 1 Number.zero .Dispute)).1 = .error (.AlreadyDisputed 2))
    ∧ (((Ledger.mk [(1, ⟨⟨300000⟩, ⟨0⟩, false⟩)]
        [(1, ⟨1, ⟨500000⟩, .Deposit, .Ok⟩), (2, ⟨1, ⟨200000⟩, .Withdrawal, .Ok⟩)]).apply_transaction
        2 (Transaction.new 1 Number.zero .Dispute)).2 =
      Ledger.mk [(1, ⟨⟨300000⟩, ⟨0⟩, false⟩)]
        [(1, ⟨1, ⟨500000⟩, .Deposit, .Ok⟩), (2, ⟨1, ⟨200000⟩, .Withdrawal, .Ok⟩)]) :=
  ⟨((alreadyDisputed_characterization
      (Ledger.mk [(1, ⟨⟨300000⟩, ⟨0⟩, false⟩)]
        [(1, ⟨1, ⟨500000⟩, .Deposit, .Ok⟩), (2, ⟨1, ⟨200000⟩, .Withdrawal, .Ok⟩)])
      2 (Transaction.new 1 Number.zero .Dispute) 2).1).mpr
    ⟨rfl, rfl, ⟨1, ⟨200000⟩, .Withdrawal, .Ok⟩, by decide, by decide⟩,
   (alreadyDisputed_characterization
      (Ledger.mk [(1, ⟨⟨300000⟩, ⟨0⟩, false⟩)]
        [(1, ⟨1, ⟨500000⟩, .Deposit, .Ok⟩), (2, ⟨1, ⟨200000⟩, .Withdrawal, .Ok⟩)])
      2 (Transaction.new 1 Number.zero .Dispute) 2).2 (by decide)⟩

theorem deposit_ok_iff {a : Account} {amount : Number} {a' : Account} :
    a.deposit amount = .ok a' ↔
      (a.available.add amount).InRange ∧
        a' = { a with available := a.available.add amount } := by
  unfold Account.deposit Number.checked_add
  by_cases h : (a.available.add amount).InRange <;> simp [h, eq_comm]

theorem withdraw_ok_iff {a : Account} {amount : Number} {a' : Account} :
    a.withdraw amount = .ok a' ↔
      a.locked = false ∧ ¬a.available.lt amount ∧
        a' = { a with available := a.available.sub amount } := by
  unfold Account.withdraw Account.check_locked
  by_cases hl : a.locked <;> by_cases hlt : a.available.lt amount <;>
    simp [hl, hlt, eq_comm]

theorem dispute_ok_iff {a : Account} {amount : Number} {a' : Account} :
    a.dispute amount = .ok a' ↔
      (a.available.sub amount).InRange ∧ (a.held.add amount).InRange ∧
        a' = { a with available := a.available.sub amount,
                      held := a.held.add amount } := by
  unfold Account.dispute Number.checked_sub Number.checked_add
  by_cases h1 : (a.available.sub amount).InRange <;>
    by_cases h2 : (a.held.add amount).InRange <;> simp [h1, h2, eq_comm]

theorem resolve_ok_iff {a : Account} {amount : Number} {a' : Account} :
    a.resolve amount = .ok a' ↔
      (a.available.add amount).InRange ∧ (a.held.sub amount).InRange ∧
        a' = { a with available := a.available.add amount,
                      held := a.held.sub amount } := by
  unfold Account.resolve Number.checked_add Number.checked_sub
  by_cases h1 : (a.available.add amount).InRange <;>
    by_cases h2 : (a.held.sub amount).InRange <;> simp [h1, h2, eq_comm]

theorem sub_add_cancel_number (a b : Number) : (a.sub b).add b = a :=
  Number.ext (by simp [Number.add, Number.sub])

theorem add_sub_cancel_number (a b : Number) : (a.add b).sub b = a :=
  Number.ext (by simp [Number.add, Number.sub])

/-- C6: resolve is the inverse of dispute.  At the account level, whenever
dispute succeeds on an account with representable balances, resolve of the same
amount succeeds on the result and restores the original account exactly.  At
the ledger level, a successful Resolve of a Disputed transaction stores it with
state Ok again, and a further Dispute of that id (the stored operation being a
Deposit) is never rejected as AlreadyDisputed. -/
theorem resolve_inverts_dispute :
    (∀ (a : Account) (amount : Number) (a' : Account),
      a.available.InRange → a.held.InRange →
      a.dispute amount = .ok a' → a'.resolve amount = .ok a)
    ∧ (∀ (L : Ledger) (id : TransactionId) (tx t : Transaction) (u : Unit) (L' : Ledger),
        getMap L.transactions id = some tx → tx.state = .Disputed →
        t.operation = .Resolve → L.apply_transaction id t = (.ok u, L') →
        getMap L'.transactions id = some { tx with state := .Ok }
        ∧ (tx.operation = .Deposit → ∀ t₂ : Transaction, t₂.operation = .Dispute →
            (L'.apply_transaction id t₂).1 ≠ .error (.AlreadyDisputed id))) := by
  constructor
  · intro a amount a' hav hheld hd
    rw [dispute_ok_iff] at hd
    obtain ⟨h1, h2, rfl⟩ := hd
    rw [resolve_ok_iff]
    refine ⟨?_, ?_, ?_⟩
    · simpa [sub_add_cancel_number] using hav
    · simpa [add_sub_cancel_number] using hheld
    · simp [sub_add_cancel_number, add_sub_cancel_number]
  · intro L id tx t u L' hfind hst hop happ
    rw [apply_transaction_eq_resolve hop] at happ
    unfold Ledger.resolveTx at happ
    split at happ
    · rename_i heq
      rw [hfind] at heq
      cases heq
    · rename_i tx' heq
      rw [hfind] at heq
      injection heq with heq'
      subst heq'
      split at happ
      · split at happ
        · simp at happ
        · rename_i acc hacc
          have hL' : L' = ⟨setMap L.accounts tx.client acc,
              setMap L.transactions id { tx with state := .Ok }⟩ :=
            (congrArg Prod.snd happ).symm
          subst hL'
          have hfind' : getMap (setMap L.transactions id { tx with state := .Ok }) id =
              some { tx with state := .Ok } := getMap_setMap_self _ _ _
          refine ⟨hfind', ?_⟩
          intro hdep t₂ hop₂
          rw [apply_transaction_eq_dispute hop₂, Ne, disputeTx_alreadyDisputed_iff]
          rintro ⟨-, tx', htx', hbad⟩
          rw [hfind'] at htx'
          injection htx' with htx''
          subst htx''
          exact hbad ⟨rfl, hdep⟩
      · rename_i hc
        exact absurd hst hc

/-- C6 witness: on a concrete account a dispute of 30 followed by a resolve of
30 restores the account, and on a concrete ledger a Resolve of a Disputed
deposit re-enables a further Dispute. -/
theorem resolve_inverts_dispute_witness :
    ((⟨⟨500000⟩, ⟨0⟩, false⟩ : Account).dispute ⟨300000⟩ =
        .ok ⟨⟨200000⟩, ⟨300000⟩, false⟩)
    ∧ ((⟨⟨200000⟩, ⟨300000⟩, false⟩ : Account).resolve ⟨300000⟩ =
        .ok ⟨⟨500000⟩, ⟨0⟩, false⟩)
    ∧ (getMap (Ledger.mk [(1, ⟨⟨500000⟩, ⟨0⟩, false⟩)]
          [(5, ⟨1, ⟨300000⟩, .Deposit, .Ok⟩)]).transactions 5 =
        some ⟨1, ⟨300000⟩, .Deposit, .Ok⟩) :=
  ⟨by decide,
    resolve_inverts_dispute.1 ⟨⟨500000⟩, ⟨0⟩, false⟩ ⟨300000⟩
      ⟨⟨200000⟩, ⟨300000⟩, false⟩ (by decide) (by decide) (by decide),
    (resolve_inverts_dispute.2
      (Ledger.mk [(1, ⟨⟨200000⟩, ⟨300000⟩, false⟩)]
        [(5, ⟨1, ⟨300000⟩, .Deposit, .Disputed⟩)])
      5 ⟨1, ⟨300000⟩, .Deposit, .Disputed⟩
      (Transaction.new 9 Number.zero .Resolve) ()
      (Ledger.mk [(1, ⟨⟨500000⟩, ⟨0⟩, false⟩)]
        [(5, ⟨1, ⟨300000⟩, .Deposit, .Ok⟩)])
      (by decide) rfl rfl (by decide)).1⟩

theorem getMap_mem {α : Type} {m : List (Nat × α)} {k : Nat} {v : α}
    (h : getMap m k = some v) : (k, v) ∈ m := by
  induction m with
  | nil => cases h
  | cons p rest ih =>
    obtain ⟨k', v'⟩ := p
    by_cases hk : k = k'
    · subst hk
      simp [getMap] at h
      subst h
      exact List.mem_cons_self _ _
    · simp [getMap, hk] at h
      exact List.mem_cons_of_mem _ (ih h)

theorem mem_setMap {α : Type} {m : List (Nat × α)} {k : Nat} {v : α} {p : Nat × α}
    (h : p ∈ setMap m k v) : p = (k, v) ∨ p ∈ m := by
  induction m with
  | nil => simp [setMap] at h; exact .inl h
  | cons q rest ih =>
    obtain ⟨k', v'⟩ := q
    by_cases hk : k = k'
    · subst hk
      rw [show setMap ((k, v') :: rest) k v = (k, v) :: rest from by simp [setMap]] at h
      rcases List.mem_cons.mp h with h | h
      · exact .inl h
      · exact .inr (List.mem_cons_of_mem _ h)
    · rw [show setMap ((k', v') :: rest) k v = (k', v') :: setMap rest k v from by
          simp [setMap, hk]] at h
      rcases List.mem_cons.mp h with h | h
      · exact .inr (by simp [h])
      · rcases ih h with h' | h'
        · exact .inl h'
        · exact .inr (List.mem_cons_of_mem _ h')

/-- The contribution of one stored transaction to the held balance of client c:
its amount when it is a currently Disputed transaction of that client. -/
def contrib (c : ClientId) (t : Transaction) : Int :=
  if t.client = c ∧ t.state = .Disputed then t.amount.units else 0

/-- The sum, over the stored transactions, of the amounts currently held for
client c (the amounts of its Disputed transactions). -/
def heldSum (txs : List (TransactionId × Transaction)) (c : ClientId) : Int :=
  (txs.map (fun p => contrib c p.2)).sum

theorem contrib_nonneg {c : ClientId} {t : Transaction}
    (h : 0 ≤ t.amount.units) : 0 ≤ contrib c t := by
  unfold contrib
  split
  · exact h
  · exact le_refl 0

theorem contrib_of_not_disputed {c : ClientId} {t : Transaction}
    (h : t.state ≠ .Disputed) : contrib c t = 0 := by
  unfold contrib
  rw [if_neg]
  rintro ⟨-, h2⟩
  exact h h2

theorem contrib_of_ne_client {c : ClientId} {t : Transaction}
    (h : t.client ≠ c) : contrib c t = 0 := by
  unfold contrib
  rw [if_neg]
  rintro ⟨h1, -⟩
  exact h h1

theorem contrib_disputed_self {t : Transaction} (h : t.state = .Disputed) :
    contrib t.client t = t.amount.units := by
  unfold contrib
  rw [if_pos ⟨rfl, h⟩]

theorem heldSum_nil (c : ClientId) : heldSum [] c = 0 := rfl

theorem heldSum_cons (p : TransactionId × Transaction)
    (rest : List (TransactionId × Transaction)) (c : ClientId) :
    heldSum (p :: rest) c = contrib c p.2 + heldSum rest c := by
  simp [heldSum]

theorem heldSum_cons_pair (k : TransactionId) (t : Transaction)
    (rest : List (TransactionId × Transaction)) (c : ClientId) :
    heldSum ((k, t) :: rest) c = contrib c t + heldSum rest c := by
  simp [heldSum]

theorem heldSum_nonneg {c : ClientId} : ∀ {txs : List (TransactionId × Transaction)},
    (∀ p ∈ txs, 0 ≤ p.2.amount.units) → 0 ≤ heldSum txs c := by
  intro txs
  induction txs with
  | nil => intro _; exact le_refl 0
  | cons p rest ih =>
    intro h
    rw [heldSum_cons]
    have h1 := contrib_nonneg (c := c) (h p (List.mem_cons_self _ _))
    have h2 := ih (fun q hq => h q (List.mem_cons_of_mem _ hq))
    linarith

theorem heldSum_setMap_none {k : TransactionId} {v : Transaction} {c : ClientId} :
    ∀ {txs : List (TransactionId × Transaction)}, getMap txs k = none →
      heldSum (setMap txs k v) c = heldSum txs c + contrib c v := by
  intro txs
  induction txs with
  | nil => intro _; simp [setMap, heldSum_cons, heldSum_nil]
  | cons p rest ih =>
    obtain ⟨k', v'⟩ := p
    intro h
    by_cases hk : k = k'
    · subst hk
      simp [getMap] at h
    · have h' : getMap rest k = none := by simpa [getMap, hk] using h
      rw [show setMap ((k', v') :: rest) k v = (k', v') :: setMap rest k v from by
            simp [setMap, hk],
          heldSum_cons, heldSum_cons, ih h']
      omega

theorem heldSum_setMap_some {k : TransactionId} {tx v : Transaction} {c : ClientId} :
    ∀ {txs : List (TransactionId × Transaction)}, getMap txs k = some tx →
      heldSum (setMap txs k v) c = heldSum txs c - contrib c tx + contrib c v := by
  intro txs
  induction txs with
  | nil => intro h; cases h
  | cons p rest ih =>
    obtain ⟨k', v'⟩ := p
    intro h
    by_cases hk : k = k'
    · subst hk
      simp [getMap] at h
      subst h
      rw [show setMap ((k, v') :: rest) k v = (k, v) :: rest from by simp [setMap],
          heldSum_cons_pair, heldSum_cons_pair]
      omega
    · have h' : getMap rest k = some tx := by simpa [getMap, hk] using h
      rw [show setMap ((k', v') :: rest) k v = (k', v') :: setMap rest k v from by
            simp [setMap, hk],
          heldSum_cons, heldSum_cons, ih h']
      omega

theorem contrib_le_heldSum {k : TransactionId} {tx : Transaction} {c : ClientId} :
    ∀ {txs : List (TransactionId × Transaction)},
      (∀ p ∈ txs, 0 ≤ p.2.amount.units) → getMap txs k = some tx →
      contrib c tx ≤ heldSum txs c := by
  intro txs
  induction txs with
  | nil => intro _ h; cases h
  | cons p rest ih =>
    obtain ⟨k', v'⟩ := p
    intro hn h
    rw [heldSum_cons]
    by_cases hk : k = k'
    · subst hk
      simp [getMap] at h
      subst h
      have h2 : 0 ≤ heldSum rest c :=
        heldSum_nonneg (fun q hq => hn q (List.mem_cons_of_mem _ hq))
      linarith
    · have h' : getMap rest k = some tx := by simpa [getMap, hk] using h
      have h1 := ih (fun q hq => hn q (List.mem_cons_of_mem _ hq)) h'
      have h2 := contrib_nonneg (c := c) (hn (k', v') (List.mem_cons_self _ _))
      linarith

theorem account_def (L : Ledger) (c : ClientId) :
    L.account c = (getMap L.accounts c).getD Account.default := rfl

/-- The reachability invariant used for the chargeback claim: all recorded
amounts are nonnegative, the held balance of every client is exactly the sum of
the amounts of its currently Disputed transactions, and every held balance is
within the representable range. -/
def Inv (L : Ledger) : Prop :=
  (∀ p ∈ L.transactions, 0 ≤ p.2.amount.units)
  ∧ (∀ c, (L.account c).held.units = heldSum L.transactions c)
  ∧ (∀ c, (L.account c).held.units ≤ maxUnits)

theorem Inv.update {L : Ledger} (hInv : Inv L) {cl : ClientId} {acc : Account}
    {id : TransactionId} {tx' : Transaction} {d : Int}
    (hamt : 0 ≤ tx'.amount.units)
    (hdelta : acc.held.units = (L.account cl).held.units + d)
    (hsum : ∀ c, heldSum (setMap L.transactions id tx') c =
      heldSum L.transactions c + (if c = cl then d else 0))
    (hle : acc.held.units ≤ maxUnits) :
    Inv ⟨setMap L.accounts cl acc, setMap L.transactions id tx'⟩ := by
  obtain ⟨hn, he, hl⟩ := hInv
  refine ⟨?_, ?_, ?_⟩
  · intro p hp
    rcases mem_setMap hp with rfl | hp'
    · exact hamt
    · exact hn p hp'
  · intro c
    rw [show (⟨setMap L.accounts cl acc, setMap L.transactions id tx'⟩ : Ledger).account c
        = (getMap (setMap L.accounts cl acc) c).getD Account.default from rfl]
    rw [show (⟨setMap L.accounts cl acc, setMap L.transactions id tx'⟩ : Ledger).transactions
        = setMap L.transactions id tx' from rfl]
    rw [hsum c]
    by_cases hc : c = cl
    · subst hc
      rw [getMap_setMap_self, if_pos rfl]
      simp only [Option.getD_some]
      rw [hdelta]
      have hec := he c
      omega
    · rw [getMap_setMap_ne _ _ _ _ hc, if_neg hc]
      have := he c
      rw [account_def] at this
      omega
  · intro c
    rw [show (⟨setMap L.accounts cl acc, setMap L.transactions id tx'⟩ : Ledger).account c
        = (getMap (setMap L.accounts cl acc) c).getD Account.default from rfl]
    by_cases hc : c = cl
    · subst hc
      rw [getMap_setMap_self]
      exact hle
    · rw [getMap_setMap_ne _ _ _ _ hc]
      have := hl c
      rw [account_def] at this
      exact this

theorem inv_applyTransfer {L : Ledger} {id : TransactionId} {t : Transaction}
    {op : Account → Number → AccountResult}
    (hInv : Inv L) (ht : 0 ≤ t.amount.units)
    (hop : ∀ (a : Account) (x : Number) (a' : Account),
      op a x = .ok a' → a'.held = a.held) :
    Inv (L.applyTransfer id t op).2 := by
  unfold Ledger.applyTransfer
  split
  · exact hInv
  · rename_i hrep
    split
    · exact hInv
    · rename_i acc hacc
      have hnone : getMap L.transactions id = none := by
        cases hgm : getMap L.transactions id with
        | none => rfl
        | some v => exact absurd (by simp [hgm]) hrep
      refine hInv.update (d := 0) ht ?_ ?_ ?_
      · rw [hop _ _ _ hacc]
        omega
      · intro c
        rw [heldSum_setMap_none hnone,
          contrib_of_not_disputed (t := { t with state := .Ok }) (by intro h; cases h)]
        split <;> omega
      · rw [hop _ _ _ hacc]
        exact hInv.2.2 t.client

theorem inv_disputeTx {L : Ledger} {id : TransactionId} (hInv : Inv L) :
    Inv (L.disputeTx id).2 := by
  unfold Ledger.disputeTx
  split
  · exact hInv
  · rename_i tx heq
    split
    · rename_i hcond
      split
      · exact hInv
      · rename_i acc hacc
        rw [dispute_ok_iff] at hacc
        obtain ⟨h1, h2, rfl⟩ := hacc
        have hamt : 0 ≤ tx.amount.units := hInv.1 (id, tx) (getMap_mem heq)
        refine hInv.update (d := tx.amount.units) hamt ?_ ?_ ?_
        · simp [Number.add]
        · intro c
          rw [heldSum_setMap_some heq,
            contrib_of_not_disputed (by rw [hcond.1]; intro h; cases h)]
          by_cases hc : c = tx.client
          · subst hc
            rw [show contrib tx.client { tx with state := .Disputed } = tx.amount.units from
              contrib_disputed_self (t := { tx with state := .Disputed }) rfl]
            simp
          · rw [contrib_of_ne_client (t := { tx with state := .Disputed })
              (by intro h; exact hc h.symm)]
            simp [hc]
        · exact h2.2
    · exact hInv

theorem inv_resolveTx {L : Ledger} {id : TransactionId} (hInv : Inv L) :
    Inv (L.resolveTx id).2 := by
  unfold Ledger.resolveTx
  split
  · exact hInv
  · rename_i tx heq
    split
    · rename_i hst
      split
      · exact hInv
      · rename_i acc hacc
        rw [resolve_ok_iff] at hacc
        obtain ⟨h1, h2, rfl⟩ := hacc
        have hamt : 0 ≤ tx.amount.units := hInv.1 (id, tx) (getMap_mem heq)
        refine hInv.update (d := -tx.amount.units) hamt ?_ ?_ ?_
        · simp [Number.sub]
          omega
        · intro c
          rw [heldSum_setMap_some heq,
            contrib_of_not_disputed (t := { tx with state := .Ok }) (by intro h; cases h)]
          by_cases hc : c = tx.client
          · subst hc
            rw [contrib_disputed_self hst]
            simp
            omega
          · rw [contrib_of_ne_client (by intro h; exact hc h.symm)]
            simp [hc]
        · have := h2.2
          simp [Number.sub] at this ⊢
          exact this
    · exact hInv

theorem inv_chargebackTx {L : Ledger} {id : TransactionId} (hInv : Inv L) :
    Inv (L.chargebackTx id).2 := by
  unfold Ledger.chargebackTx
  split
  · exact hInv
  · rename_i tx heq
    split
    · rename_i hst
      have hamt : 0 ≤ tx.amount.units := hInv.1 (id, tx) (getMap_mem heq)
      have hcle : contrib tx.client tx ≤ heldSum L.transactions tx.client :=
        contrib_le_heldSum hInv.1 heq
      rw [contrib_disputed_self hst] at hcle
      refine hInv.update (d := -tx.amount.units) hamt ?_ ?_ ?_
      · simp [Account.chargeback, Number.sub]
        omega
      · intro c
        rw [heldSum_setMap_some heq,
          contrib_of_not_disputed (t := { tx with state := .Chargedback })
            (by intro h; cases h)]
        by_cases hc : c = tx.client
        · subst hc
          rw [contrib_disputed_self hst]
          simp
          omega
        · rw [contrib_of_ne_client (by intro h; exact hc h.symm)]
          simp [hc]
      · have hle := hInv.2.2 tx.client
        simp [Account.chargeback, Number.sub]
        omega
    · exact hInv

theorem inv_apply {L : Ledger} {id : TransactionId} {t : Transaction}
    (hInv : Inv L) (ht : 0 ≤ t.amount.units) :
    Inv (L.apply_transaction id t).2 := by
  cases hop : t.operation
  · rw [apply_transaction_eq_deposit hop]
    refine inv_applyTransfer hInv ht ?_
    intro a x a' h
    rw [deposit_ok_iff] at h
    rw [h.2]
  · rw [apply_transaction_eq_withdrawal hop]
    refine inv_applyTransfer hInv ht ?_
    intro a x a' h
    rw [withdraw_ok_iff] at h
    rw [h.2.2]
  · rw [apply_transaction_eq_dispute hop]
    exact inv_disputeTx hInv
  · rw [apply_transaction_eq_resolve hop]
    exact inv_resolveTx hInv
  · rw [apply_transaction_eq_chargeback hop]
    exact inv_chargebackTx hInv

theorem inv_applyAll {rs : List (TransactionId × Transaction)} :
    ∀ {L : Ledger}, Inv L → (∀ p ∈ rs, 0 ≤ p.2.amount.units) →
      Inv (L.applyAll rs).2 := by
  induction rs with
  | nil => intro L hInv _; exact hInv
  | cons r rest ih =>
    intro L hInv h
    have h1 : Inv (L.apply_transaction r.1 r.2).2 :=
      inv_apply hInv (h r (List.mem_cons_self _ _))
    exact ih h1 (fun q hq => h q (List.mem_cons_of_mem _ hq))

theorem maxUnits_pos : 0 < maxUnits := by norm_num [maxUnits]

theorem inv_new : Inv Ledger.new := by
  refine ⟨?_, ?_, ?_⟩
  · intro p hp; cases hp
  · intro c; rfl
  · intro c
    have := maxUnits_pos
    show (0 : Int) ≤ maxUnits
    omega

theorem chargeback_inRange_of_inv {L : Ledger} (hInv : Inv L) {id : TransactionId}
    {tx : Transaction} (hfind : getMap L.transactions id = some tx)
    (hst : tx.state = .Disputed) :
    (((L.account tx.client).held).sub tx.amount).InRange := by
  have hamt : 0 ≤ tx.amount.units := hInv.1 (id, tx) (getMap_mem hfind)
  have hcle : contrib tx.client tx ≤ heldSum L.transactions tx.client :=
    contrib_le_heldSum hInv.1 hfind
  rw [contrib_disputed_self hst] at hcle
  have he := hInv.2.1 tx.client
  have hle := hInv.2.2 tx.client
  have hpos := maxUnits_pos
  constructor <;> simp [Number.sub] <;> omega

theorem deposit_error_eq {a : Account} {amount : Number} {e : AccountError}
    (h : a.deposit amount = .error e) :
    e = .Overflow a.available a.held amount := by
  unfold Account.deposit at h
  cases hc : a.available.checked_add amount <;> rw [hc] at h
  · injection h with h'
    exact h'.symm
  · cases h

theorem withdraw_error_eq {a : Account} {amount : Number} {e : AccountError}
    (h : a.withdraw amount = .error e) :
    e = .FrozenAccount a ∨ e = .Underflow a.available a.held amount := by
  unfold Account.withdraw Account.check_locked at h
  by_cases hl : a.locked
  · rw [if_pos hl] at h
    injection h with h'
    exact .inl h'.symm
  · rw [if_neg hl] at h
    by_cases hlt : a.available.lt amount
    · rw [if_pos hlt] at h
      injection h with h'
      exact .inr h'.symm
    · rw [if_neg hlt] at h
      cases h

theorem dispute_error_eq {a : Account} {amount : Number} {e : AccountError}
    (h : a.dispute amount = .error e) :
    e = .Underflow a.available a.held amount ∨
      e = .Overflow a.available a.held amount := by
  unfold Account.dispute at h
  cases hc : a.available.checked_sub amount <;> rw [hc] at h
  · injection h with h'
    exact .inl h'.symm
  · cases hc2 : a.held.checked_add amount <;> rw [hc2] at h
    · injection h with h'
      exact .inr h'.symm
    · cases h

theorem resolve_error_eq {a : Account} {amount : Number} {e : AccountError}
    (h : a.resolve amount = .error e) :
    e = .Overflow a.available a.held amount ∨
      e = .Underflow a.available a.held amount := by
  unfold Account.resolve at h
  cases hc : a.available.checked_add amount <;> rw [hc] at h
  · injection h with h'
    exact .inl h'.symm
  · cases hc2 : a.held.checked_sub amount <;> rw [hc2] at h
    · injection h with h'
      exact .inr h'.symm
    · cases h

/-- C8 (amended): no core operation aborts on well-typed input: deposit,
withdraw, dispute and resolve report every failure as an error value carrying
the pre-mutation balances (Overflow/Underflow, or FrozenAccount for a locked
withdrawal); a successful deposit stores the exact, representable sum, and
successful disputes and resolves store only checked, representable balances;
and, provided the amounts involved are nonnegative, the two unchecked
subtractions stay within the representable range as well: the successful
withdraw of a nonnegative amount from an account whose available balance is
representable stores the exact, representable difference, and the subtraction
performed by Account::chargeback when the Ledger invokes it on the amount
recorded as held for a Disputed transaction is representable.  The
nonnegativity proviso is forced: with a negative amount either unchecked
subtraction can leave the range (see the counterexample). -/
theorem arithmetic_failures_are_reported :
    (∀ (a : Account) (amount : Number) (e : AccountError),
      (a.deposit amount = .error e → e = .Overflow a.available a.held amount)
      ∧ (a.withdraw amount = .error e →
          e = .FrozenAccount a ∨ e = .Underflow a.available a.held amount)
      ∧ (a.dispute amount = .error e →
          e = .Underflow a.available a.held amount ∨
            e = .Overflow a.available a.held amount)
      ∧ (a.resolve amount = .error e →
          e = .Overflow a.available a.held amount ∨
            e = .Underflow a.available a.held amount))
    ∧ (∀ (a : Account) (amount : Number) (a' : Account),
        a.deposit amount = .ok a' →
          a'.available = a.available.add amount ∧ a'.available.InRange)
    ∧ (∀ (a : Account) (amount : Number) (a' : Account),
        a.dispute amount = .ok a' → a'.available.InRange ∧ a'.held.InRange)
    ∧ (∀ (a : Account) (amount : Number) (a' : Account),
        a.resolve amount = .ok a' → a'.available.InRange ∧ a'.held.InRange)
    ∧ (∀ (a : Account) (amount : Number) (a' : Account),
        a.available.InRange → 0 ≤ amount.units →
        a.withdraw amount = .ok a' →
          a'.available = a.available.sub amount ∧ a'.available.InRange)
    ∧ (∀ rs : List (TransactionId × Transaction),
        (∀ p ∈ rs, 0 ≤ p.2.amount.units) →
        ∀ (id : TransactionId) (tx : Transaction),
          getMap (Ledger.new.applyAll rs).2.transactions id = some tx →
          tx.state = .Disputed →
          ((((Ledger.new.applyAll rs).2.account tx.client).held).sub tx.amount).InRange) := by
  refine ⟨?_, ?_, ?_, ?_, ?_, ?_⟩
  · intro a amount e
    exact ⟨deposit_error_eq, withdraw_error_eq, dispute_error_eq, resolve_error_eq⟩
  · intro a amount a' h
    rw [deposit_ok_iff] at h
    obtain ⟨h1, rfl⟩ := h
    exact ⟨rfl, h1⟩
  · intro a amount a' h
    rw [dispute_ok_iff] at h
    obtain ⟨h1, h2, rfl⟩ := h
    exact ⟨h1, h2⟩
  · intro a amount a' h
    rw [resolve_ok_iff] at h
    obtain ⟨h1, h2, rfl⟩ := h
    exact ⟨h1, h2⟩
  · intro a amount a' hav hamt h
    rw [withdraw_ok_iff] at h
    obtain ⟨hl, hlt, rfl⟩ := h
    refine ⟨rfl, ?_⟩
    simp only [Number.lt, not_lt] at hlt
    obtain ⟨hlo, hhi⟩ := hav
    have hpos := maxUnits_pos
    constructor <;> simp only [Number.sub] <;> omega
  · intro rs hrs id tx hfind hst
    exact chargeback_inRange_of_inv (inv_applyAll inv_new hrs) hfind hst

/-- C8 witness: a concrete withdrawal of 20 from 50 stores the representable
difference 30, and a concrete deposit-then-dispute run leaves the chargeback
subtraction for the Disputed transaction representable. -/
theorem arithmetic_failures_are_reported_witness :
    ((⟨⟨500000⟩, ⟨0⟩, false⟩ : Account).withdraw ⟨200000⟩ =
        .ok ⟨⟨300000⟩, ⟨0⟩, false⟩)
    ∧ (⟨300000⟩ : Number).InRange
    ∧ (getMap (Ledger.new.applyAll
        [(1, Transaction.new 1 ⟨500000⟩ .Deposit),
         (1, Transaction.new 1 Number.zero .Dispute)]).2.transactions 1 =
      some ⟨1, ⟨500000⟩, .Deposit, .Disputed⟩)
    ∧ ((((Ledger.new.applyAll
        [(1, Transaction.new 1 ⟨500000⟩ .Deposit),
         (1, Transaction.new 1 Number.zero .Dispute)]).2.account 1).held).sub
          ⟨500000⟩).InRange :=
  ⟨by decide,
    (arithmetic_failures_are_reported.2.2.2.2.1 ⟨⟨500000⟩, ⟨0⟩, false⟩ ⟨200000⟩
      ⟨⟨300000⟩, ⟨0⟩, false⟩ (by decide) (by decide) (by decide)).2,
    by decide,
    arithmetic_failures_are_reported.2.2.2.2.2
      [(1, Transaction.new 1 ⟨500000⟩ .Deposit),
       (1, Transaction.new 1 Number.zero .Dispute)]
      (by decide) 1 ⟨1, ⟨500000⟩, .Deposit, .Disputed⟩ (by decide) rfl⟩

/-- C8 counterexample: with negative amounts the claim fails as stated, for
both unchecked subtractions of account.rs.  Withdraw: Deposit of M (the
largest representable unit count) followed by a Withdrawal of -M is accepted
at both steps and stores available = 2 M, outside the representable range.
Chargeback: after deposits of M, -M and M and successful disputes of all
three, transaction 2 is stored Disputed with amount -M while only M is held,
so the subtraction Account::chargeback performs for its Chargeback (held minus
the recorded amount, that is 2 M) leaves the representable range, and applying
the Chargeback record indeed stores an unrepresentable held balance. -/
theorem chargeback_overflow_cex :
    ((Ledger.new.applyAll
        [(1, Transaction.new 1 ⟨maxUnits⟩ .Deposit),
         (2, Transaction.new 1 ⟨-maxUnits⟩ .Withdrawal)]).1 = [.ok (), .ok ()])
    ∧ ¬ (((Ledger.new.applyAll
        [(1, Transaction.new 1 ⟨maxUnits⟩ .Deposit),
         (2, Transaction.new 1 ⟨-maxUnits⟩ .Withdrawal)]).2.account 1).available).InRange
    ∧ (getMap (Ledger.new.applyAll
        [(1, Transaction.new 1 ⟨maxUnits⟩ .Deposit),
         (2, Transaction.new 1 ⟨-maxUnits⟩ .Deposit),
         (3, Transaction.new 1 ⟨maxUnits⟩ .Deposit),
         (1, Transaction.new 1 Number.zero .Dispute),
         (2, Transaction.new 1 Number.zero .Dispute),
         (3, Transaction.new 1 Number.zero .Dispute)]).2.transactions 2 =
      some ⟨1, ⟨-maxUnits⟩, .Deposit, .Disputed⟩)
    ∧ ¬ ((((Ledger.new.applyAll
        [(1, Transaction.new 1 ⟨maxUnits⟩ .Deposit),
         (2, Transaction.new 1 ⟨-maxUnits⟩ .Deposit),
         (3, Transaction.new 1 ⟨maxUnits⟩ .Deposit),
         (1, Transaction.new 1 Number.zero .Dispute),
         (2, Transaction.new 1 Number.zero .Dispute),
         (3, Transaction.new 1 Number.zero .Dispute)]).2.account 1).held).sub
          ⟨-maxUnits⟩).InRange
    ∧ ¬ (((Ledger.new.applyAll
        [(1, Transaction.new 1 ⟨maxUnits⟩ .Deposit),
         (2, Transaction.new 1 ⟨-maxUnits⟩ .Deposit),
         (3, Transaction.new 1 ⟨maxUnits⟩ .Deposit),
         (1, Transaction.new 1 Number.zero .Dispute),
         (2, Transaction.new 1 Number.zero .Dispute),
         (3, Transaction.new 1 Number.zero .Dispute),
         (2, Transaction.new 1 Number.zero .Chargeback)]).2.account 1).held).InRange := by
  refine ⟨by decide, by decide, by decide, by decide, by decide⟩

end Payments
